import Mathlib

/-!
Shallow embedding of the gitops-compose reconciliation engine.

The embedding follows the Go sources:
- `internal/deployment/deployment.go` (Deployment, DeploymentConfig, LoadConfig,
  Apply, prepareImages, ensureIsStopped, ensureIsRunning),
- `internal/gitops/gitops.go` (applyDeploymentChange, checkAndUpdateDeployments,
  CheckAndUpdate, the GitOps struct with retryDeployments and isFirstCheck),
- `internal/compose/compose.go` (GetWatchFiles and the fingerprint hashing
  performed by LoadConfig),
- `internal/metrics/metrics.go` (the per-cycle DeploymentState counters),
- `cmd/main.go` (the trigger channel feeding the single reconciliation worker).

External collaborators (git transport, docker daemon, compose runtime) are
modelled as an explicit `World`: a set of running stacks, per-operation
fault switches, the contents of the local and the remote git head, and a
chronological trace of the stack operations the engine performs.  Stateful Go
code becomes explicit state passing over this `World`.
-/

namespace GitopsCompose

/-- Go `DeploymentState` from deployment.go: Added | Removed | Updated | Unchanged. -/
inductive DeploymentState where
  | Added
  | Removed
  | Updated
  | Unchanged
deriving DecidableEq, Repr

/-- Go `DeploymentConfig` from deployment.go: the snapshot produced by LoadConfig.
The Go zero value corresponds to `emptyConfig` below. -/
structure DeploymentConfig where
  hash : String
  isValid : Bool
  gitopsIgnore : Bool
  gitopsController : Bool
deriving DecidableEq, Repr

/-- The Go zero value `DeploymentConfig\x7b\x7d` that LoadConfig resets to. -/
def emptyConfig : DeploymentConfig :=
  { hash := "", isValid := false, gitopsIgnore := false, gitopsController := false }

/-- The sentinel errors Apply can produce (deployment.go); each ensure/prepare
failure keeps its own constructor so that the sentinel comparisons
`err == ErrInvalidComposeFile` and `d.Error == ErrImagePullBackoff` from
gitops.go stay faithful. -/
inductive ApplyErr where
  | invalidComposeFile
  | imagePullBackoff
  | listImagesFailed
  | isRunningFailed
  | stopFailed
  | startFailed
deriving DecidableEq, Repr

/-- Go `Deployment` from deployment.go (the docker/compose handles live in the
`World`; `Filepath`, `State`, `config` and `Error` are carried here). -/
structure Deployment where
  filepath : String
  state : DeploymentState
  config : DeploymentConfig
  error : Option ApplyErr
deriving DecidableEq, Repr

/-- Go `NewDeployment` from deployment.go: fresh deployment, state Unchanged,
zero config, nil error. -/
def newDeployment (filepath : String) : Deployment :=
  { filepath := filepath, state := .Unchanged, config := emptyConfig, error := none }

/-- The stack operations the engine performs against the container runtime,
recorded chronologically.  `dockerPull` is one `d.docker.Pull(image)` call
issued by `prepareImages` on behalf of the deployment at `path`; `listImages`
is the `compose.ListImages` call that opens `prepareImages`. -/
inductive Ev where
  | dockerPull (path image : String)
  | listImages (path : String)
  | start (path : String)
  | stop (path : String)
deriving DecidableEq, Repr

/-- The deployment a trace event was performed for. -/
def Ev.path : Ev → String
  | .dockerPull p _ => p
  | .listImages p => p
  | .start p => p
  | .stop p => p

/-- What one compose file resolves to at a given git head: whether
`LoadProject`/`MarshalYAML` succeed, the two recognized labels, the resulting
fingerprint, and the image list `compose.ListImages` reports. -/
structure FileCfg where
  loadOk : Bool
  ignore : Bool
  controller : Bool
  hash : String
  images : List String
deriving DecidableEq, Repr

/-- The collaborator world: git listings and faults, the compose file contents
at the local and the remote head, the docker daemon state, per-operation fault
switches, and the trace of stack operations performed so far. -/
structure World where
  hasChangesResult : Option Bool
  localFiles : Option (List String)
  remoteFiles : Option (List String)
  loginErr : Bool
  gitPullErr : Bool
  fsLocal : String → FileCfg
  fsRemote : String → FileCfg
  existsLocally : String → Bool
  pullErr : String → Bool
  isRunningErr : String → Bool
  stopErr : String → Bool
  startErr : String → Bool
  running : List String
  pulled : Bool
  trace : List Ev

/-- The compose file content currently on disk: the remote head once
`git pull` has materialized it, the local head before. -/
def World.fs (w : World) (p : String) : FileCfg :=
  if w.pulled then w.fsRemote p else w.fsLocal p

/-- Record one performed stack operation. -/
def World.emit (w : World) (e : Ev) : World :=
  { w with trace := w.trace ++ [e] }

/-- Go `docker.Pull` from docker.go: the call is recorded; it succeeds when the
image already exists locally, and otherwise exactly when the registry pull
does not fault. -/
def dockerPull (w : World) (p img : String) : Bool × World :=
  let w := w.emit (.dockerPull p img)
  (w.existsLocally img || !w.pullErr img, w)

/-- The pull loop of `prepareImages` (deployment.go): pull every image,
stopping at the first failure. -/
def pullAll (w : World) (p : String) : List String → Bool × World
  | [] => (true, w)
  | img :: rest =>
    let (ok, w) := dockerPull w p img
    if ok then pullAll w p rest else (false, w)

/-- Go `prepareImages` from deployment.go: `compose.ListImages` (which reloads
the project, failing when the manifest does not load), then `docker.Pull` for
each image; a pull failure is turned into `ErrImagePullBackoff`, a listing
failure is passed through. -/
def prepareImages (w : World) (p : String) : Option ApplyErr × World :=
  let w := w.emit (.listImages p)
  if (w.fs p).loadOk then
    match pullAll w p (w.fs p).images with
    | (true, w) => (none, w)
    | (false, w) => (some .imagePullBackoff, w)
  else
    (some .listImagesFailed, w)

/-- Go `ensureIsStopped` from deployment.go: query IsRunning, stop when running,
report whether a stop actually happened. -/
def ensureIsStopped (w : World) (p : String) : Except ApplyErr Bool × World :=
  if w.isRunningErr p then (.error .isRunningFailed, w)
  else if p ∈ w.running then
    let w := w.emit (.stop p)
    if w.stopErr p then (.error .stopFailed, w)
    else (.ok true, { w with running := w.running.filter (fun q => q != p) })
  else (.ok false, w)

/-- Go `ensureIsRunning` from deployment.go: query IsRunning, start when not
running, report whether a start actually happened. -/
def ensureIsRunning (w : World) (p : String) : Except ApplyErr Bool × World :=
  if w.isRunningErr p then (.error .isRunningFailed, w)
  else if p ∈ w.running then (.ok false, w)
  else
    let w := w.emit (.start p)
    if w.startErr p then (.error .startFailed, w)
    else (.ok true, { w with running := p :: w.running })

/-- Go `compose.Start` called directly by the Added branch of Apply. -/
def composeStart (w : World) (p : String) : Option ApplyErr × World :=
  let w := w.emit (.start p)
  if w.startErr p then (some .startFailed, w)
  else (none, { w with running := List.insert p w.running })

/-- Go `Deployment.Apply` from deployment.go: reset `Error`, reject invalid
configs, skip ignored and controller deployments, then run the per-state
algorithm.  Returns `(wasChanged, err)` together with the mutated deployment
and world.  (The Go `default: ErrUnknownDeploymentState` arm is unreachable
here because `DeploymentState` is a closed inductive.) -/
def Deployment.apply (d : Deployment) (w : World) :
    (Bool × Option ApplyErr) × Deployment × World :=
  let d := { d with error := none }
  if !d.config.isValid then
    ((false, some .invalidComposeFile), { d with error := some .invalidComposeFile }, w)
  else if d.config.gitopsIgnore then ((false, none), d, w)
  else if d.config.gitopsController then ((false, none), d, w)
  else
    match d.state with
    | .Added =>
      match prepareImages w d.filepath with
      | (some _, w) =>
        ((false, some .imagePullBackoff), { d with error := some .imagePullBackoff }, w)
      | (none, w) =>
        match composeStart w d.filepath with
        | (some e, w) => ((false, some e), { d with error := some e }, w)
        | (none, w) => ((true, none), d, w)
    | .Removed =>
      match ensureIsStopped w d.filepath with
      | (.error e, w) => ((false, some e), { d with error := some e }, w)
      | (.ok wasStopped, w) => ((wasStopped, none), d, w)
    | .Updated =>
      match prepareImages w d.filepath with
      | (some e, w) => ((false, some e), { d with error := some e }, w)
      | (none, w) =>
        match ensureIsStopped w d.filepath with
        | (.error e, w) => ((false, some e), { d with error := some e }, w)
        | (.ok _, w) =>
          match ensureIsRunning w d.filepath with
          | (.error e, w) => ((false, some e), { d with error := some e }, w)
          | (.ok wasStarted, w) => ((wasStarted, none), d, w)
    | .Unchanged =>
      match prepareImages w d.filepath with
      | (some e, w) => ((false, some e), { d with error := some e }, w)
      | (none, w) =>
        match ensureIsRunning w d.filepath with
        | (.error e, w) => ((false, some e), { d with error := some e }, w)
        | (.ok wasStarted, w) => ((wasStarted, none), d, w)

/-- The per-cycle `DeploymentState` counters from metrics.go. -/
structure Counts where
  unchanged : Nat
  started : Nat
  stopped : Nat
  updated : Nat
  failed : Nat
  invalid : Nat
  ignored : Nat
deriving DecidableEq, Repr

/-- Go `metrics.NewState`. -/
def Counts.zero : Counts :=
  { unchanged := 0, started := 0, stopped := 0, updated := 0,
    failed := 0, invalid := 0, ignored := 0 }

/-- The sum of the six counters touched by `applyDeploymentChange`. -/
def Counts.totalSix (c : Counts) : Nat :=
  c.unchanged + c.started + c.stopped + c.updated + c.failed + c.invalid

/-- The counter update performed by `applyDeploymentChange` (gitops.go) after
`Apply` returns: Invalid for the invalid-compose-file sentinel, Failed for any
other error, otherwise the counter selected by the deployment state and by
whether a state-changing action was reported. -/
def bumpCounts (c : Counts) (err : Option ApplyErr) (st : DeploymentState)
    (wasChanged : Bool) : Counts :=
  match err with
  | some .invalidComposeFile => { c with invalid := c.invalid + 1 }
  | some _ => { c with failed := c.failed + 1 }
  | none =>
    match st, wasChanged with
    | .Added, true => { c with started := c.started + 1 }
    | .Added, false => { c with unchanged := c.unchanged + 1 }
    | .Updated, true => { c with updated := c.updated + 1 }
    | .Updated, false => { c with unchanged := c.unchanged + 1 }
    | .Removed, true => { c with stopped := c.stopped + 1 }
    | .Removed, false => { c with unchanged := c.unchanged + 1 }
    | .Unchanged, true => { c with started := c.started + 1 }
    | .Unchanged, false => { c with unchanged := c.unchanged + 1 }

/-- Go `applyDeploymentChange` from gitops.go: apply the deployment, then
increment exactly one counter. -/
def applyDeploymentChange (w : World) (c : Counts) (d : Deployment) :
    World × Counts × Deployment :=
  let ((wasChanged, err), d, w) := d.apply w
  (w, bumpCounts c err d.state wasChanged, d)

/-- Go `Deployment.LoadConfig` from deployment.go (the coarse view used by the
cycle: what the file resolves to is read off the current `World.fs`): reset
the config, fail when the project does not load, otherwise record labels,
fingerprint and validity, and promote the state to Updated when a previously
observed config had a different fingerprint.  The returned error is ignored
by the callers in gitops.go, so only the mutated deployment is returned. -/
def Deployment.loadConfig (d : Deployment) (w : World) : Deployment :=
  let old := d.config
  let fc := w.fs d.filepath
  if !fc.loadOk then { d with config := emptyConfig }
  else
    let d := { d with config :=
      { hash := fc.hash, isValid := true,
        gitopsIgnore := fc.ignore, gitopsController := fc.controller } }
    if old ≠ emptyConfig ∧ old.hash ≠ fc.hash then { d with state := .Updated }
    else d

/-- The deployment-building loops of `checkAndUpdateDeployments` (gitops.go):
one deployment per local compose file, config loaded from the local head,
marked Removed when absent from the remote listing; then one fresh Added
deployment per remote-only file, with no config load. -/
def buildDeployments (w : World) (localFiles remoteFiles : List String) :
    List Deployment :=
  localFiles.map (fun f =>
    let d := (newDeployment f).loadConfig w
    if f ∈ remoteFiles then d else { d with state := .Removed })
  ++ (remoteFiles.filter (fun f => f ∉ localFiles)).map
      (fun f => { newDeployment f with state := .Added })

/-- The stop-removed loop of `checkAndUpdateDeployments`: skip ignored and
controller deployments, apply the Removed ones. -/
def stopRemovedPhase (w : World) (c : Counts) :
    List Deployment → World × Counts × List Deployment
  | [] => (w, c, [])
  | d :: rest =>
    if d.config.gitopsIgnore || d.config.gitopsController then
      let (w, c, rest') := stopRemovedPhase w c rest
      (w, c, d :: rest')
    else if d.state = .Removed then
      let (w, c, d') := applyDeploymentChange w c d
      let (w, c, rest') := stopRemovedPhase w c rest
      (w, c, d' :: rest')
    else
      let (w, c, rest') := stopRemovedPhase w c rest
      (w, c, d :: rest')

/-- The reload loop of `checkAndUpdateDeployments`: LoadConfig again for every
deployment that is not Removed (after the git pull has materialized the
remote head). -/
def reloadPhase (w : World) (ds : List Deployment) : List Deployment :=
  ds.map (fun d => if d.state = .Removed then d else d.loadConfig w)

/-- The update loop of `checkAndUpdateDeployments`: skip ignored, controller
and Removed deployments, apply the rest. -/
def updatePhase (w : World) (c : Counts) :
    List Deployment → World × Counts × List Deployment
  | [] => (w, c, [])
  | d :: rest =>
    if d.config.gitopsIgnore || d.config.gitopsController
        || d.state = .Removed then
      let (w, c, rest') := updatePhase w c rest
      (w, c, d :: rest')
    else
      let (w, c, d') := applyDeploymentChange w c d
      let (w, c, rest') := updatePhase w c rest
      (w, c, d' :: rest')

/-- The post-deployment loop of `checkAndUpdateDeployments`: ignored
deployments are counted (unless classified Removed) and nothing else is done
for them; controller deployments classified Removed or Added are counted as
failures, an Updated controller is only logged. -/
def postPhase (c : Counts) : List Deployment → Counts
  | [] => c
  | d :: rest =>
    if d.config.gitopsIgnore then
      postPhase (if d.state ≠ .Removed then { c with ignored := c.ignored + 1 } else c) rest
    else if d.config.gitopsController then
      match d.state with
      | .Removed => postPhase { c with failed := c.failed + 1 } rest
      | .Added => postPhase { c with failed := c.failed + 1 } rest
      | _ => postPhase c rest
    else postPhase c rest

/-- The cycle-level failures of `checkAndUpdateDeployments`. -/
inductive CycleErr where
  | listLocalFailed
  | listRemoteFailed
  | loginFailed
  | gitPullFailed
deriving DecidableEq, Repr

/-- Go `checkAndUpdateDeployments` from gitops.go: list both heads, build and
classify the deployments, ensure registry login, stop the removed stacks,
pull the repository, reload configs, apply the rest, then run the
post-deployment bookkeeping.  Listing and login failures return an empty
deployment list; a git pull failure returns the deployments built so far. -/
def checkAndUpdateDeployments (w : World) (c : Counts) :
    (List Deployment × Option CycleErr) × Counts × World :=
  match w.localFiles with
  | none => (([], some .listLocalFailed), c, w)
  | some localFiles =>
    match w.remoteFiles with
    | none => (([], some .listRemoteFailed), c, w)
    | some remoteFiles =>
      let ds := buildDeployments w localFiles remoteFiles
      if w.loginErr then (([], some .loginFailed), c, w)
      else
        let (w, c, ds) := stopRemovedPhase w c ds
        if w.gitPullErr then ((ds, some .gitPullFailed), c, w)
        else
          let w := { w with pulled := true }
          let ds := reloadPhase w ds
          let (w, c, ds) := updatePhase w c ds
          let c := postPhase c ds
          ((ds, none), c, w)

/-- The cross-cycle state of the `GitOps` struct (gitops.go). -/
structure GitOps where
  retryDeployments : List Deployment
  isFirstCheck : Bool
deriving Repr

/-- Go `NewGitOps`. -/
def newGitOps : GitOps := { retryDeployments := [], isFirstCheck := true }

/-- What one `CheckAndUpdate` invocation reports: whether the full
diff-and-apply pass ran, the aggregated counters, whether the repository
change check itself failed, and the cycle-level failure if any. -/
structure CycleReport where
  ranFullDiff : Bool
  counts : Counts
  checkError : Bool
  cycleError : Option CycleErr
deriving DecidableEq, Repr

/-- The retry loop of `CheckAndUpdate` (gitops.go): apply every retained
deployment in order, keeping those whose `Error` is the image-pull-backoff
sentinel afterwards. -/
def retryPass (w : World) (c : Counts) (newRetry : List Deployment) :
    List Deployment → World × Counts × List Deployment
  | [] => (w, c, newRetry)
  | d :: rest =>
    let (w, c, d') := applyDeploymentChange w c d
    let newRetry :=
      if d'.error = some .imagePullBackoff then newRetry ++ [d'] else newRetry
    retryPass w c newRetry rest

/-- The retry loop again, exposing the post-apply deployments themselves
(same world and counter threading as `retryPass`). -/
def retryOutcomes (w : World) : List Deployment → List Deployment
  | [] => []
  | d :: rest =>
    let (w, _, d') := applyDeploymentChange w Counts.zero d
    d' :: retryOutcomes w rest

/-- Go `CheckAndUpdate` from gitops.go.  The `isFirstCheck` defer fires on every
return path, so the flag is false afterwards in all cases.  A failing change
check returns before the retry-set defer is registered, leaving the retry set
untouched; every later return path replaces it (with the empty list when the
full pass aborts with a cycle-level error). -/
def checkAndUpdate (g : GitOps) (w : World) : GitOps × World × CycleReport :=
  match w.hasChangesResult with
  | none =>
    ({ g with isFirstCheck := false }, w,
     { ranFullDiff := false, counts := Counts.zero,
       checkError := true, cycleError := none })
  | some hasChanges =>
    if hasChanges || g.isFirstCheck then
      match checkAndUpdateDeployments w Counts.zero with
      | ((_, some e), c, w) =>
        ({ retryDeployments := [], isFirstCheck := false }, w,
         { ranFullDiff := true, counts := c, checkError := false,
           cycleError := some e })
      | ((ds, none), c, w) =>
        ({ retryDeployments := ds.filter (fun d => d.error = some .imagePullBackoff),
           isFirstCheck := false }, w,
         { ranFullDiff := true, counts := c, checkError := false,
           cycleError := none })
    else
      let (w, c, newRetry) := retryPass w Counts.zero [] g.retryDeployments
      ({ retryDeployments := newRetry, isFirstCheck := false }, w,
       { ranFullDiff := false, counts := c, checkError := false,
         cycleError := none })

/-!
Fine-grained model of the fingerprint computed by `LoadConfig`
(deployment.go) together with `GetWatchFiles` (compose.go).  A resolved
compose project is abstracted to the bytes `project.MarshalYAML` produces
plus the raw `x-gitops.watch` lists; the sha256 step is abstracted to a
caller-supplied hash function over the byte stream fed into it. -/

/-- A resolved compose project, as far as the fingerprint is concerned:
the marshalled YAML bytes, the root-level `x-gitops.watch` list, and one
`x-gitops.watch` list per service. -/
structure ProjectModel where
  yamlBytes : List Nat
  rootWatch : List String
  serviceWatch : List (List String)
deriving DecidableEq, Repr

/-- The service-level accumulation of `GetWatchFiles`: each entry is appended
only when not already collected. -/
def appendUnique (acc : List String) : List String → List String
  | [] => acc
  | f :: rest => appendUnique (if f ∈ acc then acc else acc ++ [f]) rest

/-- Go `GetWatchFiles` from compose.go: the root-level watch list, then every
service-level list with the already-collected entries skipped, each surviving
entry passed through `resolveWatchPath` (entries it rejects are dropped). -/
def getWatchFiles (resolve : String → Option String) (p : ProjectModel) :
    List String :=
  (p.serviceWatch.foldl appendUnique p.rootWatch).filterMap resolve

/-- The byte stream `LoadConfig` feeds into the hash after the project YAML:
`io.Copy` of each watch file that opens, in order; files failing to open are
skipped. -/
def watchBytes (read : String → Option (List Nat)) : List String → List Nat
  | [] => []
  | f :: rest =>
    (match read f with
     | none => []
     | some c => c) ++ watchBytes read rest

/-- The fingerprint `LoadConfig` computes: the hash of the marshalled project
YAML followed by the contents of every readable declared watch file.  The
source hashes with sha256 and hex-encodes; `hashFn` abstracts that step. -/
def fingerprint {α : Type} (hashFn : List Nat → α)
    (read : String → Option (List Nat)) (resolve : String → Option String)
    (p : ProjectModel) : α :=
  hashFn (p.yamlBytes ++ watchBytes read (getWatchFiles resolve p))

/-!
Model of the trigger scheduling in cmd/main.go: a single worker goroutine
ranges over a trigger channel created with `make(chan struct \x7b\x7d)` and runs one
reconciliation cycle per received trigger; the webhook handler performs a
non-blocking send (`select` with a `default` arm) and the timer goroutine a
blocking send.  A Go channel of capacity `n` holds at most `n` buffered
elements, and a send on a full channel succeeds only by rendezvous with a
receiver that is already waiting. -/

/-- The capacity of the trigger channel: `make(chan struct \x7b\x7d)` is
unbuffered. -/
def triggerChanCapacity : Nat := 0

/-- Whether the single worker goroutine is blocked receiving on the trigger
channel or currently executing a reconciliation cycle. -/
inductive WorkerPhase where
  | waiting
  | running
deriving DecidableEq, Repr

/-- The scheduler state: the worker phase and the number of triggers buffered
in the channel. -/
structure Sched where
  phase : WorkerPhase
  queued : Nat
deriving DecidableEq, Repr

/-- The scheduler state at process start: the worker blocked on the empty
channel. -/
def Sched.init : Sched := { phase := .waiting, queued := 0 }

/-- The webhook handler's non-blocking send: hand the trigger to a waiting
worker immediately; otherwise buffer it when the channel has spare capacity,
and drop it (the `default` arm) when it does not.  Returns whether the
trigger was accepted. -/
def webhookSend (s : Sched) : Sched × Bool :=
  match s.phase with
  | .waiting => ({ phase := .running, queued := s.queued }, true)
  | .running =>
    if s.queued < triggerChanCapacity then
      ({ s with queued := s.queued + 1 }, true)
    else (s, false)

/-- The timer goroutine's blocking send can complete only when the worker is
waiting (rendezvous) or the channel has spare capacity. -/
def timerSend (s : Sched) : Sched × Bool :=
  match s.phase with
  | .waiting => ({ phase := .running, queued := s.queued }, true)
  | .running =>
    if s.queued < triggerChanCapacity then
      ({ s with queued := s.queued + 1 }, true)
    else (s, false)

/-- The worker finishing a cycle: consume a buffered trigger when one exists,
otherwise block on the channel again. -/
def workerFinish (s : Sched) : Sched :=
  if s.queued = 0 then { phase := .waiting, queued := 0 }
  else { phase := .running, queued := s.queued - 1 }

/-- Scheduler states reachable from process start. -/
inductive SchedReachable : Sched → Prop where
  | init : SchedReachable Sched.init
  | webhook {s : Sched} : SchedReachable s → SchedReachable (webhookSend s).1
  | timer {s : Sched} : SchedReachable s → SchedReachable (timerSend s).1
  | finish {s : Sched} : SchedReachable s → SchedReachable (workerFinish s)

/-! Concrete compose files, worlds and deployments used by the witnesses and
counterexamples below. -/

/-- A compose file that fails to load. -/
def offCfg : FileCfg :=
  { loadOk := false, ignore := false, controller := false, hash := "", images := [] }

/-- A loadable compose file without gitops labels. -/
def okCfg (h : String) (imgs : List String) : FileCfg :=
  { loadOk := true, ignore := false, controller := false, hash := h, images := imgs }

/-- A loadable compose file whose labels include gitops.ignore. -/
def ignCfg (h : String) : FileCfg :=
  { loadOk := true, ignore := true, controller := false, hash := h, images := [] }

/-- A loadable compose file whose labels include gitops.controller. -/
def ctlCfg (h : String) : FileCfg :=
  { loadOk := true, ignore := false, controller := true, hash := h, images := [] }

/-- A fault-free world with no compose files, no running stacks and an empty
trace. -/
def baseWorld : World where
  hasChangesResult := some true
  localFiles := some []
  remoteFiles := some []
  loginErr := false
  gitPullErr := false
  fsLocal := fun _ => offCfg
  fsRemote := fun _ => offCfg
  existsLocally := fun _ => false
  pullErr := fun _ => false
  isRunningErr := fun _ => false
  stopErr := fun _ => false
  startErr := fun _ => false
  running := []
  pulled := false
  trace := []

/-- A valid, unlabeled deployment at path "app", classified Unchanged. -/
def unchangedApp : Deployment where
  filepath := "app"
  state := .Unchanged
  config :=
    { hash := "h", isValid := true, gitopsIgnore := false, gitopsController := false }
  error := none

/-- A world where "app" resolves to a valid manifest with one image and its
stack is already running. -/
def c2World : World :=
  { baseWorld with fsLocal := fun _ => okCfg "h" ["img"], running := ["app"] }

/-- State `w'` extends `w` by events all satisfying `P`. -/
def NewEvents (w w' : World) (P : Ev → Prop) : Prop :=
  ∃ t, w'.trace = w.trace ++ t ∧ ∀ e ∈ t, P e

/-- The C1 scenario world: local head lists "a" and "b"; the remote head
lists "b" (with changed content) and "c"; the stacks "a" and "b" run before
the cycle; every collaborator operation succeeds. -/
def c1World (ha hb1 hb2 hc : String) : World :=
  { baseWorld with
    localFiles := some ["a", "b"]
    remoteFiles := some ["b", "c"]
    fsLocal := fun p =>
      if p = "a" then okCfg ha ["ia"]
      else if p = "b" then okCfg hb1 ["ib"] else offCfg
    fsRemote := fun p =>
      if p = "b" then okCfg hb2 ["ib"]
      else if p = "c" then okCfg hc ["ic"] else offCfg
    running := ["a", "b"] }

/-- The C7 counterexample world: one local manifest "x", labeled ignored,
absent from the remote head (so classified Removed), its stack running. -/
def c7World : World :=
  { baseWorld with
    localFiles := some ["x"]
    fsLocal := fun _ => ignCfg "hx"
    running := ["x"] }

/-- A world where the ignored manifest "y" is present at both heads and its
stack is not running. -/
def c7bWorld : World :=
  { baseWorld with
    localFiles := some ["y"]
    remoteFiles := some ["y"]
    fsLocal := fun _ => ignCfg "hy"
    fsRemote := fun _ => ignCfg "hy" }

/-- A world where the controller manifest "ctl" exists only at the local head
(so classified Removed) and its stack runs. -/
def c5World : World :=
  { baseWorld with
    localFiles := some ["ctl"]
    fsLocal := fun _ => ctlCfg "hc"
    fsRemote := fun _ => ctlCfg "hc"
    running := ["ctl"] }

/-- The C6 counterexample world: the manifest "x" exists only locally (so it
is classified Removed), its stack runs, and the git pull fails. -/
def c6World : World :=
  { baseWorld with
    localFiles := some ["x"]
    fsLocal := fun _ => okCfg "hx" []
    running := ["x"]
    gitPullErr := true }

/-- A GitOps state past its first check with an empty retry set. -/
def steadyGitOps : GitOps := { retryDeployments := [], isFirstCheck := false }

/-- The deployment retained for retry in the C3 witness: valid, unlabeled,
last error image-pull-backoff. -/
def retryDep : Deployment where
  filepath := "r"
  state := .Unchanged
  config :=
    { hash := "hr", isValid := true, gitopsIgnore := false, gitopsController := false }
  error := some .imagePullBackoff

/-- A GitOps state past its first check retaining `retryDep`. -/
def steadyRetryGitOps : GitOps :=
  { retryDeployments := [retryDep], isFirstCheck := false }

/-- A steady-state world where the image of manifest "r" still fails to
pull. -/
def c3World : World :=
  { baseWorld with
    hasChangesResult := some false
    localFiles := some ["r"]
    remoteFiles := some ["r"]
    fsLocal := fun _ => okCfg "hr" ["badimg"]
    fsRemote := fun _ => okCfg "hr" ["badimg"]
    pullErr := fun i => i == "badimg" }

/-- A world whose repository change check fails. -/
def c4World : World := { baseWorld with hasChangesResult := none }

/-- A world whose repository change check reports no changes. -/
def c4bWorld : World := { baseWorld with hasChangesResult := some false }

/-! Helper lemmas about the collaborator operations. -/

@[simp]
lemma emit_fs (w : World) (e : Ev) (p : String) : (w.emit e).fs p = w.fs p := rfl

@[simp]
lemma emit_running (w : World) (e : Ev) : (w.emit e).running = w.running := rfl

@[simp]
lemma emit_trace (w : World) (e : Ev) : (w.emit e).trace = w.trace ++ [e] := rfl

@[simp]
lemma emit_existsLocally (w : World) (e : Ev) :
    (w.emit e).existsLocally = w.existsLocally := rfl

@[simp]
lemma emit_pullErr (w : World) (e : Ev) : (w.emit e).pullErr = w.pullErr := rfl

@[simp]
lemma emit_stopErr (w : World) (e : Ev) : (w.emit e).stopErr = w.stopErr := rfl

@[simp]
lemma emit_startErr (w : World) (e : Ev) : (w.emit e).startErr = w.startErr := rfl

lemma apply_state (d : Deployment) (w : World) :
    ((d.apply w).2.1).state = d.state := by
  simp only [Deployment.apply]
  repeat' split
  all_goals rfl

lemma apply_filepath (d : Deployment) (w : World) :
    ((d.apply w).2.1).filepath = d.filepath := by
  simp only [Deployment.apply]
  repeat' split
  all_goals rfl

lemma apply_config (d : Deployment) (w : World) :
    ((d.apply w).2.1).config = d.config := by
  simp only [Deployment.apply]
  repeat' split
  all_goals rfl

lemma applyDeploymentChange_fields (w : World) (c : Counts) (d : Deployment) :
    ((applyDeploymentChange w c d).2.2).filepath = d.filepath
    ∧ ((applyDeploymentChange w c d).2.2).state = d.state
    ∧ ((applyDeploymentChange w c d).2.2).config = d.config := by
  unfold applyDeploymentChange
  exact ⟨apply_filepath d w, apply_state d w, apply_config d w⟩

lemma newEvents_refl (w : World) (P : Ev → Prop) : NewEvents w w P :=
  ⟨[], by simp, by simp⟩

lemma newEvents_trans {w w' w'' : World} {P : Ev → Prop}
    (h1 : NewEvents w w' P) (h2 : NewEvents w' w'' P) : NewEvents w w'' P := by
  obtain ⟨t1, e1, f1⟩ := h1
  obtain ⟨t2, e2, f2⟩ := h2
  refine ⟨t1 ++ t2, by simp [e2, e1], ?_⟩
  intro e he
  rcases List.mem_append.mp he with h | h
  · exact f1 e h
  · exact f2 e h

lemma newEvents_mono {w w' : World} {P Q : Ev → Prop}
    (hPQ : ∀ e, P e → Q e) (h : NewEvents w w' P) : NewEvents w w' Q := by
  obtain ⟨t, et, ft⟩ := h
  exact ⟨t, et, fun e he => hPQ e (ft e he)⟩

lemma newEvents_emit (w : World) (e : Ev) (P : Ev → Prop) (he : P e) :
    NewEvents w (w.emit e) P :=
  ⟨[e], rfl, by simpa⟩

lemma dockerPull_newEvents (w : World) (p img : String) :
    NewEvents w (dockerPull w p img).2 (fun e => e.path = p) := by
  simp only [dockerPull]
  exact newEvents_emit _ _ _ rfl

lemma pullAll_newEvents (w : World) (p : String) (l : List String) :
    NewEvents w (pullAll w p l).2 (fun e => e.path = p) := by
  induction l generalizing w with
  | nil => exact newEvents_refl _ _
  | cons img rest ih =>
    simp only [pullAll]
    rcases h : dockerPull w p img with ⟨ok, w'⟩
    have h1 : NewEvents w w' (fun e => e.path = p) := by
      have := dockerPull_newEvents w p img
      rwa [h] at this
    by_cases hok : ok
    · subst hok
      simpa using newEvents_trans h1 (ih w')
    · simp only [Bool.not_eq_true] at hok
      subst hok
      simpa using h1

lemma prepareImages_newEvents (w : World) (p : String) :
    NewEvents w (prepareImages w p).2 (fun e => e.path = p) := by
  simp only [prepareImages]
  have h0 : NewEvents w (w.emit (.listImages p)) (fun e => e.path = p) :=
    newEvents_emit _ _ _ rfl
  split
  · rcases h : pullAll (w.emit (.listImages p)) p ((w.emit (.listImages p)).fs p).images
        with ⟨ok, w'⟩
    have h1 : NewEvents (w.emit (.listImages p)) w' (fun e => e.path = p) := by
      have := pullAll_newEvents (w.emit (.listImages p)) p
        ((w.emit (.listImages p)).fs p).images
      rwa [h] at this
    cases ok <;> simpa [h] using newEvents_trans h0 h1
  · simpa using h0

lemma ensureIsStopped_newEvents (w : World) (p : String) :
    NewEvents w (ensureIsStopped w p).2 (fun e => e.path = p) := by
  simp only [ensureIsStopped]
  split
  · exact newEvents_refl _ _
  · split
    · split
      · exact newEvents_emit _ _ _ rfl
      · obtain ⟨t, et, ft⟩ := newEvents_emit w (Ev.stop p) (fun e => e.path = p) rfl
        exact ⟨t, et, ft⟩
    · exact newEvents_refl _ _

lemma ensureIsRunning_newEvents (w : World) (p : String) :
    NewEvents w (ensureIsRunning w p).2 (fun e => e.path = p) := by
  simp only [ensureIsRunning]
  split
  · exact newEvents_refl _ _
  · split
    · exact newEvents_refl _ _
    · split
      · exact newEvents_emit _ _ _ rfl
      · obtain ⟨t, et, ft⟩ := newEvents_emit w (Ev.start p) (fun e => e.path = p) rfl
        exact ⟨t, et, ft⟩

lemma composeStart_newEvents (w : World) (p : String) :
    NewEvents w (composeStart w p).2 (fun e => e.path = p) := by
  simp only [composeStart]
  split
  · exact newEvents_emit _ _ _ rfl
  · obtain ⟨t, et, ft⟩ := newEvents_emit w (Ev.start p) (fun e => e.path = p) rfl
    exact ⟨t, et, ft⟩

lemma apply_newEvents (d : Deployment) (w : World) :
    NewEvents w (d.apply w).2.2 (fun e => e.path = d.filepath) := by
  simp only [Deployment.apply]
  split
  · exact newEvents_refl _ _
  · split
    · exact newEvents_refl _ _
    · split
      · exact newEvents_refl _ _
      · split
        · -- Added
          rcases h : prepareImages w d.filepath with ⟨err, w'⟩
          have h1 : NewEvents w w' (fun e => e.path = d.filepath) := by
            have := prepareImages_newEvents w d.filepath
            rwa [h] at this
          cases err with
          | some e => simpa [h] using h1
          | none =>
            rcases h2 : composeStart w' d.filepath with ⟨err2, w''⟩
            have h3 : NewEvents w' w'' (fun e => e.path = d.filepath) := by
              have := composeStart_newEvents w' d.filepath
              rwa [h2] at this
            cases err2 <;> simpa [h, h2] using newEvents_trans h1 h3
        · -- Removed
          rcases h : ensureIsStopped w d.filepath with ⟨r, w'⟩
          have h1 : NewEvents w w' (fun e => e.path = d.filepath) := by
            have := ensureIsStopped_newEvents w d.filepath
            rwa [h] at this
          cases r <;> simpa [h] using h1
        · -- Updated
          rcases h : prepareImages w d.filepath with ⟨err, w'⟩
          have h1 : NewEvents w w' (fun e => e.path = d.filepath) := by
            have := prepareImages_newEvents w d.filepath
            rwa [h] at this
          cases err with
          | some e => simpa [h] using h1
          | none =>
            rcases h2 : ensureIsStopped w' d.filepath with ⟨r2, w''⟩
            have h3 : NewEvents w' w'' (fun e => e.path = d.filepath) := by
              have := ensureIsStopped_newEvents w' d.filepath
              rwa [h2] at this
            cases r2 with
            | error e => simpa [h, h2] using newEvents_trans h1 h3
            | ok b =>
              rcases h4 : ensureIsRunning w'' d.filepath with ⟨r4, w3⟩
              have h5 : NewEvents w'' w3 (fun e => e.path = d.filepath) := by
                have := ensureIsRunning_newEvents w'' d.filepath
                rwa [h4] at this
              cases r4 <;>
                simpa [h, h2, h4] using newEvents_trans (newEvents_trans h1 h3) h5
        · -- Unchanged
          rcases h : prepareImages w d.filepath with ⟨err, w'⟩
          have h1 : NewEvents w w' (fun e => e.path = d.filepath) := by
            have := prepareImages_newEvents w d.filepath
            rwa [h] at this
          cases err with
          | some e => simpa [h] using h1
          | none =>
            rcases h2 : ensureIsRunning w' d.filepath with ⟨r2, w''⟩
            have h3 : NewEvents w' w'' (fun e => e.path = d.filepath) := by
              have := ensureIsRunning_newEvents w' d.filepath
              rwa [h2] at this
            cases r2 <;> simpa [h, h2] using newEvents_trans h1 h3

lemma applyDeploymentChange_newEvents (w : World) (c : Counts) (d : Deployment) :
    NewEvents w (applyDeploymentChange w c d).1 (fun e => e.path = d.filepath) := by
  unfold applyDeploymentChange
  exact apply_newEvents d w

lemma bumpCounts_spec (c : Counts) (err : Option ApplyErr) (st : DeploymentState)
    (wc : Bool) :
    (bumpCounts c err st wc).ignored = c.ignored
    ∧ (bumpCounts c err st wc).totalSix = c.totalSix + 1
    ∧ ((bumpCounts c err st wc).invalid = c.invalid + 1
        ↔ err = some .invalidComposeFile)
    ∧ ((bumpCounts c err st wc).failed = c.failed + 1
        ↔ ∃ e, err = some e ∧ e ≠ .invalidComposeFile)
    ∧ ((bumpCounts c err st wc).started = c.started + 1
        ↔ err = none ∧ wc = true ∧ (st = .Added ∨ st = .Unchanged))
    ∧ ((bumpCounts c err st wc).updated = c.updated + 1
        ↔ err = none ∧ wc = true ∧ st = .Updated)
    ∧ ((bumpCounts c err st wc).stopped = c.stopped + 1
        ↔ err = none ∧ wc = true ∧ st = .Removed)
    ∧ ((bumpCounts c err st wc).unchanged = c.unchanged + 1
        ↔ err = none ∧ wc = false) := by
  rcases err with _ | e
  · cases st <;> cases wc <;>
      simp [bumpCounts, Counts.totalSix] <;> omega
  · cases e <;> cases st <;> cases wc <;>
      simp [bumpCounts, Counts.totalSix] <;> omega

/-- C10: every invocation of applyDeploymentChange increments exactly one of
the six cycle counters it manages (the ignored counter is untouched): Invalid
exactly when Apply returned the invalid-compose-file sentinel, Failed exactly
when Apply returned any other non-nil error, and otherwise the counter
selected by the deployment's state together with whether Apply reported a
state-changing action. -/
theorem C10_exactly_one_counter (w : World) (c : Counts) (d : Deployment) :
    ((applyDeploymentChange w c d).2.1).ignored = c.ignored
    ∧ ((applyDeploymentChange w c d).2.1).totalSix = c.totalSix + 1
    ∧ (((applyDeploymentChange w c d).2.1).invalid = c.invalid + 1
        ↔ (d.apply w).1.2 = some .invalidComposeFile)
    ∧ (((applyDeploymentChange w c d).2.1).failed = c.failed + 1
        ↔ ∃ e, (d.apply w).1.2 = some e ∧ e ≠ .invalidComposeFile)
    ∧ (((applyDeploymentChange w c d).2.1).started = c.started + 1
        ↔ (d.apply w).1.2 = none ∧ (d.apply w).1.1 = true
          ∧ (d.state = .Added ∨ d.state = .Unchanged))
    ∧ (((applyDeploymentChange w c d).2.1).updated = c.updated + 1
        ↔ (d.apply w).1.2 = none ∧ (d.apply w).1.1 = true ∧ d.state = .Updated)
    ∧ (((applyDeploymentChange w c d).2.1).stopped = c.stopped + 1
        ↔ (d.apply w).1.2 = none ∧ (d.apply w).1.1 = true ∧ d.state = .Removed)
    ∧ (((applyDeploymentChange w c d).2.1).unchanged = c.unchanged + 1
        ↔ (d.apply w).1.2 = none ∧ (d.apply w).1.1 = false) := by
  have hchange : (applyDeploymentChange w c d).2.1
      = bumpCounts c (d.apply w).1.2 ((d.apply w).2.1).state (d.apply w).1.1 := by
    unfold applyDeploymentChange
    rfl
  rw [hchange, apply_state]
  exact bumpCounts_spec c (d.apply w).1.2 d.state (d.apply w).1.1

lemma pullAll_ok (w : World) (p : String) (l : List String)
    (hpull : ∀ img ∈ l, w.existsLocally img || !w.pullErr img) :
    pullAll w p l = (true, { w with trace := w.trace ++ l.map (Ev.dockerPull p) }) := by
  induction l generalizing w with
  | nil => simp [pullAll]
  | cons img rest ih =>
    have hok : w.existsLocally img || !w.pullErr img := hpull img (by simp)
    have hrest : ∀ i ∈ rest, (w.emit (.dockerPull p img)).existsLocally i
        || !(w.emit (.dockerPull p img)).pullErr i := by
      intro i hi
      simpa using hpull i (by simp [hi])
    simp only [pullAll, dockerPull, emit_existsLocally, emit_pullErr, hok, if_true]
    rw [ih _ hrest]
    simp [World.emit]

lemma prepareImages_ok (w : World) (p : String)
    (hload : (w.fs p).loadOk = true)
    (hpull : ∀ img ∈ (w.fs p).images, w.existsLocally img || !w.pullErr img) :
    prepareImages w p
      = (none, { w with trace :=
          w.trace ++ Ev.listImages p :: ((w.fs p).images.map (Ev.dockerPull p)) }) := by
  simp only [prepareImages, emit_fs]
  rw [hload]
  simp only [if_true]
  rw [pullAll_ok _ _ _ (by simpa using hpull)]
  simp [World.emit]

lemma ensureIsStopped_ok_running (w : World) (p : String)
    (h1 : w.isRunningErr p = false) (h2 : w.stopErr p = false)
    (hr : p ∈ w.running) :
    ensureIsStopped w p
      = (.ok true, { w with
          trace := w.trace ++ [Ev.stop p]
          running := w.running.filter (fun q => q != p) }) := by
  simp [ensureIsStopped, h1, h2, hr, World.emit]

lemma ensureIsStopped_ok_stopped (w : World) (p : String)
    (h1 : w.isRunningErr p = false) (hr : p ∉ w.running) :
    ensureIsStopped w p = (.ok false, w) := by
  simp [ensureIsStopped, h1, hr]

lemma ensureIsRunning_ok_running (w : World) (p : String)
    (h1 : w.isRunningErr p = false) (hr : p ∈ w.running) :
    ensureIsRunning w p = (.ok false, w) := by
  simp [ensureIsRunning, h1, hr]

lemma ensureIsRunning_ok_stopped (w : World) (p : String)
    (h1 : w.isRunningErr p = false) (h2 : w.startErr p = false)
    (hr : p ∉ w.running) :
    ensureIsRunning w p
      = (.ok true, { w with
          trace := w.trace ++ [Ev.start p]
          running := p :: w.running }) := by
  simp [ensureIsRunning, h1, h2, hr, World.emit]

lemma composeStart_ok (w : World) (p : String) (h2 : w.startErr p = false) :
    composeStart w p
      = (none, { w with
          trace := w.trace ++ [Ev.start p]
          running := List.insert p w.running }) := by
  simp [composeStart, h2, World.emit]

/-- C2: for a valid, non-ignored, non-controller deployment whose collaborator
operations succeed, Apply performs exactly the steps mandated for its state.
Added: list and pull the images, then start (a state change is reported).
Removed: stop exactly when currently running, otherwise do nothing at all —
never a start, never an image pull.  Updated: list and pull images, stop when
running, then start.  Unchanged: list and pull images, and start only when
not already running — in particular, when already running the image pull
happens but no start, and no state change is reported. -/
theorem C2_apply_steps (d : Deployment) (w : World)
    (hvalid : d.config.isValid = true)
    (hign : d.config.gitopsIgnore = false)
    (hctl : d.config.gitopsController = false)
    (hload : (w.fs d.filepath).loadOk = true)
    (hpull : ∀ img ∈ (w.fs d.filepath).images,
      w.existsLocally img || !w.pullErr img)
    (hre : w.isRunningErr d.filepath = false)
    (hse : w.stopErr d.filepath = false)
    (hte : w.startErr d.filepath = false) :
    (d.state = .Added →
      (d.apply w).2.2.trace
        = w.trace ++ Ev.listImages d.filepath
            :: ((w.fs d.filepath).images.map (Ev.dockerPull d.filepath))
            ++ [Ev.start d.filepath]
      ∧ (d.apply w).1 = (true, none))
    ∧ (d.state = .Removed →
      (d.filepath ∈ w.running →
        (d.apply w).2.2.trace = w.trace ++ [Ev.stop d.filepath]
        ∧ (d.apply w).1 = (true, none))
      ∧ (d.filepath ∉ w.running →
        (d.apply w).2.2 = w ∧ (d.apply w).1 = (false, none)))
    ∧ (d.state = .Updated →
      (d.apply w).2.2.trace
        = w.trace ++ Ev.listImages d.filepath
            :: ((w.fs d.filepath).images.map (Ev.dockerPull d.filepath))
            ++ (if d.filepath ∈ w.running then [Ev.stop d.filepath] else [])
            ++ [Ev.start d.filepath]
      ∧ (d.apply w).1 = (true, none))
    ∧ (d.state = .Unchanged →
      (d.apply w).2.2.trace
        = w.trace ++ Ev.listImages d.filepath
            :: ((w.fs d.filepath).images.map (Ev.dockerPull d.filepath))
            ++ (if d.filepath ∈ w.running then [] else [Ev.start d.filepath])
      ∧ (d.apply w).1 = (!decide (d.filepath ∈ w.running), none)) := by
  obtain ⟨p, st, cfg, er⟩ := d
  simp only at hvalid hign hctl hload hpull hre hse hte
  refine ⟨?_, ?_, ?_, ?_⟩
  · intro hst
    simp only at hst
    subst hst
    simp only [Deployment.apply, hvalid, hign, hctl, Bool.not_true, if_false,
      Bool.false_eq_true]
    rw [prepareImages_ok w p hload hpull]
    simp only
    rw [composeStart_ok _ p (by simpa using hte)]
    simp [List.append_assoc]
  · intro hst
    simp only at hst
    subst hst
    constructor
    · intro hr
      simp only [Deployment.apply, hvalid, hign, hctl, Bool.not_true, if_false,
        Bool.false_eq_true]
      rw [ensureIsStopped_ok_running w p hre hse hr]
      exact ⟨rfl, rfl⟩
    · intro hr
      simp only [Deployment.apply, hvalid, hign, hctl, Bool.not_true, if_false,
        Bool.false_eq_true]
      rw [ensureIsStopped_ok_stopped w p hre hr]
      exact ⟨rfl, rfl⟩
  · intro hst
    simp only at hst
    subst hst
    simp only [Deployment.apply, hvalid, hign, hctl, Bool.not_true, if_false,
      Bool.false_eq_true]
    rw [prepareImages_ok w p hload hpull]
    simp only
    by_cases hr : p ∈ w.running
    · rw [ensureIsStopped_ok_running _ p (by simpa using hre) (by simpa using hse)
        (by simpa using hr)]
      simp only
      rw [ensureIsRunning_ok_stopped _ p (by simpa using hre) (by simpa using hte)
        (by simp)]
      simp [hr, List.append_assoc]
    · rw [ensureIsStopped_ok_stopped _ p (by simpa using hre) (by simpa using hr)]
      simp only
      rw [ensureIsRunning_ok_stopped _ p (by simpa using hre) (by simpa using hte)
        (by simpa using hr)]
      simp [hr, List.append_assoc]
  · intro hst
    simp only at hst
    subst hst
    simp only [Deployment.apply, hvalid, hign, hctl, Bool.not_true, if_false,
      Bool.false_eq_true]
    rw [prepareImages_ok w p hload hpull]
    simp only
    by_cases hr : p ∈ w.running
    · rw [ensureIsRunning_ok_running _ p (by simpa using hre) (by simpa using hr)]
      simp [hr]
    · rw [ensureIsRunning_ok_stopped _ p (by simpa using hre) (by simpa using hte)
        (by simpa using hr)]
      simp [hr, List.append_assoc]

/-- Witness for C2 at a concrete deployment and world: an Unchanged, already
running stack gets its image listed and pulled but is never started, with no
state change reported. -/
theorem C2_apply_steps_witness :
    (unchangedApp.apply c2World).2.2.trace
      = [Ev.listImages "app", Ev.dockerPull "app" "img"]
    ∧ (unchangedApp.apply c2World).1 = (false, none) := by
  have h := C2_apply_steps unchangedApp c2World rfl rfl rfl rfl
    (by intro i hi; simp [c2World, baseWorld]) rfl rfl rfl
  have h4 := h.2.2.2 rfl
  constructor
  · rw [h4.1]
    simp [c2World, baseWorld, okCfg, World.fs, unchangedApp]
  · rw [h4.2]
    simp [c2World, baseWorld, unchangedApp]

/-- C1: a full-diff cycle in the scenario world: the local head lists "a" and
"b", the remote head lists "b" (content changed, fingerprint "h1" versus
"h2") and "c"; every config load and stack operation succeeds and "a" and
"b" are running beforehand.  Then "a" is classified Removed and stopped, "b"
is classified Updated and pulled, stopped and started, "c" is classified
Added and pulled and started, and the aggregate counts are stopped 1,
updated 1, started 1, unchanged 0, failed 0 (and invalid 0, ignored 0). -/
theorem C1_full_diff_scenario :
    (checkAndUpdateDeployments (c1World "ha" "h1" "h2" "hc") Counts.zero).2.1
      = { unchanged := 0, started := 1, stopped := 1, updated := 1,
          failed := 0, invalid := 0, ignored := 0 }
    ∧ ((checkAndUpdateDeployments (c1World "ha" "h1" "h2" "hc") Counts.zero).1.1).map
        (fun d => (d.filepath, d.state))
      = [("a", .Removed), ("b", .Updated), ("c", .Added)]
    ∧ (checkAndUpdateDeployments (c1World "ha" "h1" "h2" "hc") Counts.zero).2.2.trace
      = [Ev.stop "a",
         Ev.listImages "b", Ev.dockerPull "b" "ib", Ev.stop "b", Ev.start "b",
         Ev.listImages "c", Ev.dockerPull "c" "ic", Ev.start "c"] := by
  refine ⟨?_, ?_, ?_⟩ <;> decide

lemma loadConfig_filepath (d : Deployment) (w : World) :
    (d.loadConfig w).filepath = d.filepath := by
  simp only [Deployment.loadConfig]
  repeat' split
  all_goals rfl

lemma newDeployment_loadConfig (f : String) (w : World) :
    (newDeployment f).loadConfig w
      = { filepath := f
          state := .Unchanged
          config :=
            if (w.fs f).loadOk
            then DeploymentConfig.mk (w.fs f).hash true (w.fs f).ignore
              (w.fs f).controller
            else emptyConfig
          error := none } := by
  by_cases h : (w.fs f).loadOk
  · simp [Deployment.loadConfig, newDeployment, h]
  · simp [Deployment.loadConfig, newDeployment, h]

lemma mem_buildDeployments {w : World} {lf rf : List String} {d : Deployment}
    (hd : d ∈ buildDeployments w lf rf) :
    (∃ f ∈ lf, f ∈ rf ∧ d = (newDeployment f).loadConfig w)
    ∨ (∃ f ∈ lf, f ∉ rf
        ∧ d = { (newDeployment f).loadConfig w with state := .Removed })
    ∨ (∃ f ∈ rf, f ∉ lf ∧ d = { newDeployment f with state := .Added }) := by
  simp only [buildDeployments, List.mem_append, List.mem_map, List.mem_filter,
    decide_not] at hd
  rcases hd with ⟨f, hf, heq⟩ | ⟨f, ⟨hf, hnl⟩, heq⟩
  · by_cases hr : f ∈ rf
    · exact Or.inl ⟨f, hf, hr, by rw [← heq]; simp [hr]⟩
    · exact Or.inr (Or.inl ⟨f, hf, hr, by rw [← heq]; simp [hr]⟩)
  · refine Or.inr (Or.inr ⟨f, hf, ?_, heq.symm⟩)
    simpa using hnl

lemma stopRemovedPhase_fields (w : World) (c : Counts) (ds : List Deployment) :
    ∀ d' ∈ (stopRemovedPhase w c ds).2.2, ∃ d ∈ ds,
      d'.filepath = d.filepath ∧ d'.state = d.state ∧ d'.config = d.config := by
  induction ds generalizing w c with
  | nil =>
    intro d' hd'
    simp [stopRemovedPhase] at hd'
  | cons d rest ih =>
    intro d' hd'
    simp only [stopRemovedPhase] at hd'
    split at hd'
    · rcases hrec : stopRemovedPhase w c rest with ⟨w1, c1, r1⟩
      rw [hrec] at hd'
      simp only [List.mem_cons] at hd'
      rcases hd' with h | h
      · exact ⟨d, by simp, by simp [h]⟩
      · obtain ⟨d0, hd0, hfs⟩ := ih w c d' (by rw [hrec]; exact h)
        exact ⟨d0, by simp [hd0], hfs⟩
    · split at hd'
      · rcases ha : applyDeploymentChange w c d with ⟨w1, c1, d1⟩
        rw [ha] at hd'
        rcases hrec : stopRemovedPhase w1 c1 rest with ⟨w2, c2, r2⟩
        rw [hrec] at hd'
        simp only [List.mem_cons] at hd'
        rcases hd' with h | h
        · refine ⟨d, by simp, ?_⟩
          have := applyDeploymentChange_fields w c d
          rw [ha] at this
          simp only at this
          simp [h, this.1, this.2.1, this.2.2]
        · obtain ⟨d0, hd0, hfs⟩ := ih w1 c1 d' (by rw [hrec]; exact h)
          exact ⟨d0, by simp [hd0], hfs⟩
      · rcases hrec : stopRemovedPhase w c rest with ⟨w1, c1, r1⟩
        rw [hrec] at hd'
        simp only [List.mem_cons] at hd'
        rcases hd' with h | h
        · exact ⟨d, by simp, by simp [h]⟩
        · obtain ⟨d0, hd0, hfs⟩ := ih w c d' (by rw [hrec]; exact h)
          exact ⟨d0, by simp [hd0], hfs⟩

lemma stopRemovedPhase_avoid (w : World) (c : Counts) (ds : List Deployment)
    (p : String)
    (h : ∀ d ∈ ds, d.config.gitopsIgnore = false →
      d.config.gitopsController = false → d.state = .Removed →
      d.filepath ≠ p) :
    NewEvents w (stopRemovedPhase w c ds).1 (fun e => e.path ≠ p) := by
  induction ds generalizing w c with
  | nil => exact newEvents_refl _ _
  | cons d rest ih =>
    simp only [stopRemovedPhase]
    split
    · rcases hrec : stopRemovedPhase w c rest with ⟨w1, c1, r1⟩
      have := ih w c (fun d0 hd0 => h d0 (by simp [hd0]))
      rw [hrec] at this
      exact this
    · split
      · rename_i hguard hrem
        rcases ha : applyDeploymentChange w c d with ⟨w1, c1, d1⟩
        have h1 : NewEvents w w1 (fun e => e.path ≠ p) := by
          have hne : d.filepath ≠ p := by
            simp only [Bool.or_eq_true, not_or, Bool.not_eq_true] at hguard
            exact h d (by simp) hguard.1 hguard.2 hrem
          have := applyDeploymentChange_newEvents w c d
          rw [ha] at this
          exact newEvents_mono (fun e he => by rw [he]; exact hne) this
        rcases hrec : stopRemovedPhase w1 c1 rest with ⟨w2, c2, r2⟩
        have h2 := ih w1 c1 (fun d0 hd0 => h d0 (by simp [hd0]))
        rw [hrec] at h2
        exact newEvents_trans h1 h2
      · rcases hrec : stopRemovedPhase w c rest with ⟨w1, c1, r1⟩
        have := ih w c (fun d0 hd0 => h d0 (by simp [hd0]))
        rw [hrec] at this
        exact this

lemma updatePhase_avoid (w : World) (c : Counts) (ds : List Deployment)
    (p : String)
    (h : ∀ d ∈ ds, d.config.gitopsIgnore = false →
      d.config.gitopsController = false → d.state ≠ .Removed →
      d.filepath ≠ p) :
    NewEvents w (updatePhase w c ds).1 (fun e => e.path ≠ p) := by
  induction ds generalizing w c with
  | nil => exact newEvents_refl _ _
  | cons d rest ih =>
    simp only [updatePhase]
    split
    · rcases hrec : updatePhase w c rest with ⟨w1, c1, r1⟩
      have := ih w c (fun d0 hd0 => h d0 (by simp [hd0]))
      rw [hrec] at this
      exact this
    · rename_i hguard
      rcases ha : applyDeploymentChange w c d with ⟨w1, c1, d1⟩
      have h1 : NewEvents w w1 (fun e => e.path ≠ p) := by
        have hne : d.filepath ≠ p := by
          simp only [Bool.or_eq_true, not_or, Bool.not_eq_true, decide_eq_true_eq]
            at hguard
          exact h d (by simp) hguard.1.1 hguard.1.2 hguard.2
        have := applyDeploymentChange_newEvents w c d
        rw [ha] at this
        exact newEvents_mono (fun e he => by rw [he]; exact hne) this
      rcases hrec : updatePhase w1 c1 rest with ⟨w2, c2, r2⟩
      have h2 := ih w1 c1 (fun d0 hd0 => h d0 (by simp [hd0]))
      rw [hrec] at h2
      exact newEvents_trans h1 h2

lemma postPhase_ignored (c : Counts) (ds : List Deployment) :
    (postPhase c ds).ignored
      = c.ignored + ds.countP
          (fun d => d.config.gitopsIgnore
            && decide (d.state ≠ DeploymentState.Removed)) := by
  induction ds generalizing c with
  | nil => simp [postPhase]
  | cons d rest ih =>
    simp only [postPhase]
    split
    · rename_i hign
      by_cases hst : d.state ≠ DeploymentState.Removed
      · rw [if_pos hst, ih]
        simp [List.countP_cons, hign, hst]
        omega
      · rw [if_neg hst, ih]
        simp only [ne_eq, not_not] at hst
        simp [List.countP_cons, hign, hst]
    · rename_i hign
      simp only [Bool.not_eq_true] at hign
      split
      · split
        · rw [ih]
          simp [List.countP_cons, hign]
        · rw [ih]
          simp [List.countP_cons, hign]
        · rw [ih]
          simp [List.countP_cons, hign]
      · rw [ih]
        simp [List.countP_cons, hign]

lemma postPhase_failed (c : Counts) (ds : List Deployment) :
    (postPhase c ds).failed
      = c.failed + ds.countP
          (fun d => !d.config.gitopsIgnore && d.config.gitopsController
            && (d.state == DeploymentState.Removed
                || d.state == DeploymentState.Added)) := by
  induction ds generalizing c with
  | nil => simp [postPhase]
  | cons d rest ih =>
    simp only [postPhase]
    split
    · rename_i hign
      split <;> rw [ih] <;> simp [List.countP_cons, hign]
    · rename_i hign
      simp only [Bool.not_eq_true] at hign
      split
      · rename_i hctl
        split
        · rename_i hst
          rw [ih]
          simp [List.countP_cons, hign, hctl, hst]
          omega
        · rename_i hst
          rw [ih]
          simp [List.countP_cons, hign, hctl, hst]
          omega
        · rename_i hst1 hst2
          rw [ih]
          simp only [List.countP_cons, hign, hctl, Bool.not_false, Bool.true_and,
            decide_eq_true_eq]
          have h1 : (d.state == DeploymentState.Removed) = false := by
            simpa using hst1
          have h2 : (d.state == DeploymentState.Added) = false := by
            simpa using hst2
          simp [h1, h2]
      · rename_i hctl
        simp only [Bool.not_eq_true] at hctl
        rw [ih]
        simp [List.countP_cons, hign, hctl]

lemma pullAll_fsRemote (w : World) (p : String) (l : List String) :
    ((pullAll w p l).2).fsRemote = w.fsRemote := by
  induction l generalizing w with
  | nil => rfl
  | cons img rest ih =>
    simp only [pullAll, dockerPull]
    split
    · exact ih (w.emit (.dockerPull p img))
    · rfl

lemma prepareImages_fsRemote (w : World) (p : String) :
    ((prepareImages w p).2).fsRemote = w.fsRemote := by
  simp only [prepareImages]
  split
  · rcases h : pullAll (w.emit (.listImages p)) p
        ((w.emit (.listImages p)).fs p).images with ⟨ok, w'⟩
    have hp : w'.fsRemote = w.fsRemote := by
      have := pullAll_fsRemote (w.emit (.listImages p)) p
        ((w.emit (.listImages p)).fs p).images
      rwa [h] at this
    cases ok <;> simp [h, hp]
  · rfl

lemma ensureIsStopped_fsRemote (w : World) (p : String) :
    ((ensureIsStopped w p).2).fsRemote = w.fsRemote := by
  simp only [ensureIsStopped]
  repeat' split
  all_goals rfl

lemma ensureIsRunning_fsRemote (w : World) (p : String) :
    ((ensureIsRunning w p).2).fsRemote = w.fsRemote := by
  simp only [ensureIsRunning]
  repeat' split
  all_goals rfl

lemma composeStart_fsRemote (w : World) (p : String) :
    ((composeStart w p).2).fsRemote = w.fsRemote := by
  simp only [composeStart]
  split
  all_goals rfl

lemma apply_fsRemote (d : Deployment) (w : World) :
    ((d.apply w).2.2).fsRemote = w.fsRemote := by
  simp only [Deployment.apply]
  split
  · rfl
  · split
    · rfl
    · split
      · rfl
      · split
        · rcases h : prepareImages w d.filepath with ⟨err, w'⟩
          have h1 : w'.fsRemote = w.fsRemote := by
            have := prepareImages_fsRemote w d.filepath
            rwa [h] at this
          cases err with
          | some e => simpa [h] using h1
          | none =>
            rcases h2 : composeStart w' d.filepath with ⟨err2, w''⟩
            have h3 : w''.fsRemote = w'.fsRemote := by
              have := composeStart_fsRemote w' d.filepath
              rwa [h2] at this
            cases err2 <;> simp [h, h2, h3, h1]
        · rcases h : ensureIsStopped w d.filepath with ⟨r, w'⟩
          have h1 : w'.fsRemote = w.fsRemote := by
            have := ensureIsStopped_fsRemote w d.filepath
            rwa [h] at this
          cases r <;> simpa [h] using h1
        · rcases h : prepareImages w d.filepath with ⟨err, w'⟩
          have h1 : w'.fsRemote = w.fsRemote := by
            have := prepareImages_fsRemote w d.filepath
            rwa [h] at this
          cases err with
          | some e => simpa [h] using h1
          | none =>
            rcases h2 : ensureIsStopped w' d.filepath with ⟨r2, w''⟩
            have h3 : w''.fsRemote = w'.fsRemote := by
              have := ensureIsStopped_fsRemote w' d.filepath
              rwa [h2] at this
            cases r2 with
            | error e => simp [h, h2, h3, h1]
            | ok b =>
              rcases h4 : ensureIsRunning w'' d.filepath with ⟨r4, w3⟩
              have h5 : w3.fsRemote = w''.fsRemote := by
                have := ensureIsRunning_fsRemote w'' d.filepath
                rwa [h4] at this
              cases r4 <;> simp [h, h2, h4, h5, h3, h1]
        · rcases h : prepareImages w d.filepath with ⟨err, w'⟩
          have h1 : w'.fsRemote = w.fsRemote := by
            have := prepareImages_fsRemote w d.filepath
            rwa [h] at this
          cases err with
          | some e => simpa [h] using h1
          | none =>
            rcases h2 : ensureIsRunning w' d.filepath with ⟨r2, w''⟩
            have h3 : w''.fsRemote = w'.fsRemote := by
              have := ensureIsRunning_fsRemote w' d.filepath
              rwa [h2] at this
            cases r2 <;> simp [h, h2, h3, h1]

lemma stopRemovedPhase_fsRemote (w : World) (c : Counts) (ds : List Deployment) :
    ((stopRemovedPhase w c ds).1).fsRemote = w.fsRemote := by
  induction ds generalizing w c with
  | nil => rfl
  | cons d rest ih =>
    simp only [stopRemovedPhase]
    split
    · rcases hrec : stopRemovedPhase w c rest with ⟨w1, c1, r1⟩
      have := ih w c
      rw [hrec] at this
      simpa [hrec] using this
    · split
      · rcases ha : applyDeploymentChange w c d with ⟨w1, c1, d1⟩
        have h1 : w1.fsRemote = w.fsRemote := by
          have : ((applyDeploymentChange w c d).1).fsRemote = w.fsRemote := by
            unfold applyDeploymentChange
            exact apply_fsRemote d w
          rwa [ha] at this
        rcases hrec : stopRemovedPhase w1 c1 rest with ⟨w2, c2, r2⟩
        have h2 := ih w1 c1
        rw [hrec] at h2
        simp only at h2
        simp [ha, hrec, h2, h1]
      · rcases hrec : stopRemovedPhase w c rest with ⟨w1, c1, r1⟩
        have := ih w c
        rw [hrec] at this
        simpa [hrec] using this

lemma loadConfig_config (d : Deployment) (w : World) :
    (d.loadConfig w).config
      = if (w.fs d.filepath).loadOk
        then DeploymentConfig.mk (w.fs d.filepath).hash true
          (w.fs d.filepath).ignore (w.fs d.filepath).controller
        else emptyConfig := by
  by_cases h : (w.fs d.filepath).loadOk
  · simp only [Deployment.loadConfig, h, Bool.not_true, if_true, if_false,
      Bool.false_eq_true]
    split
    all_goals simp [h]
  · simp [Deployment.loadConfig, h]

/-- If the manifest at path `p` loads at both heads and carries a skip label
(ignore or controller) at both heads, the cycle performs no stack operation
for `p`: every event of the cycle is for some other path. -/
lemma cycle_avoid (w : World) (c : Counts) (p : String)
    (hpl : w.pulled = false)
    (hloc : (w.fsLocal p).loadOk = true)
    (hrem : (w.fsRemote p).loadOk = true)
    (hguardL : (w.fsLocal p).ignore = true ∨ (w.fsLocal p).controller = true)
    (hguardR : (w.fsRemote p).ignore = true ∨ (w.fsRemote p).controller = true) :
    NewEvents w (checkAndUpdateDeployments w c).2.2 (fun e => e.path ≠ p) := by
  have hfsw : ∀ q, w.fs q = w.fsLocal q := by
    intro q
    simp [World.fs, hpl]
  simp only [checkAndUpdateDeployments]
  rcases w.localFiles with _ | lf
  · exact newEvents_refl _ _
  rcases w.remoteFiles with _ | rf
  · exact newEvents_refl _ _
  simp only
  split
  · exact newEvents_refl _ _
  have hbuild : ∀ d ∈ buildDeployments w lf rf, d.filepath = p →
      (d.config.gitopsIgnore = true ∨ d.config.gitopsController = true)
      ∨ d.state = .Added := by
    intro d hd hdp
    rcases mem_buildDeployments hd with ⟨f, _, _, heq⟩ | ⟨f, _, _, heq⟩ | ⟨f, _, _, heq⟩
    · left
      have hf : f = p := by
        rw [heq] at hdp
        rwa [loadConfig_filepath, newDeployment] at hdp
      subst hf
      rw [heq, loadConfig_config]
      simp only [newDeployment, hfsw, hloc, if_true]
      simpa using hguardL
    · left
      have hf : f = p := by
        rw [heq] at hdp
        simpa [loadConfig_filepath, newDeployment] using hdp
      subst hf
      have : d.config = ((newDeployment f).loadConfig w).config := by
        rw [heq]
      rw [this, loadConfig_config]
      simp only [newDeployment, hfsw, hloc, if_true]
      simpa using hguardL
    · right
      rw [heq]
  have h1 : NewEvents w (stopRemovedPhase w c (buildDeployments w lf rf)).1
      (fun e => e.path ≠ p) := by
    refine stopRemovedPhase_avoid w c _ p ?_
    intro d hd hign hctl hrem' hdp
    rcases hbuild d hd hdp with hg | hg
    · rcases hg with hg | hg
      · rw [hign] at hg
        exact Bool.false_ne_true hg
      · rw [hctl] at hg
        exact Bool.false_ne_true hg
    · rw [hrem'] at hg
      exact DeploymentState.noConfusion hg
  rcases hstop : stopRemovedPhase w c (buildDeployments w lf rf) with ⟨w1, c1, ds1⟩
  rw [hstop] at h1
  simp only
  split
  · exact h1
  have hw1r : w1.fsRemote = w.fsRemote := by
    have := stopRemovedPhase_fsRemote w c (buildDeployments w lf rf)
    rwa [hstop] at this
  have h2 : NewEvents w1
      (updatePhase { w1 with pulled := true } c1
        (reloadPhase { w1 with pulled := true } ds1)).1
      (fun e => e.path ≠ p) := by
    have hstep : NewEvents w1 ({ w1 with pulled := true} : World)
        (fun e => e.path ≠ p) := ⟨[], by simp, by simp⟩
    refine newEvents_trans hstep ?_
    refine updatePhase_avoid _ c1 _ p ?_
    intro d hd hign hctl hrm hdp
    simp only [reloadPhase, List.mem_map] at hd
    obtain ⟨d1, hd1, heq⟩ := hd
    by_cases hrm1 : d1.state = .Removed
    · rw [if_pos hrm1] at heq
      rw [← heq] at hrm
      exact hrm hrm1
    · rw [if_neg hrm1] at heq
      have hf1 : d1.filepath = p := by
        rw [← heq, loadConfig_filepath] at hdp
        exact hdp
      have hcfg : d.config = DeploymentConfig.mk (w.fsRemote p).hash true
          (w.fsRemote p).ignore (w.fsRemote p).controller := by
        rw [← heq, loadConfig_config]
        have hfs1 : (({ w1 with pulled := true } : World).fs d1.filepath)
            = w.fsRemote p := by
          simp [World.fs, hf1, hw1r]
        rw [hfs1]
        simp [hrem]
      rcases hguardR with hg | hg
      · rw [hcfg] at hign
        simp only at hign
        rw [hign] at hg
        exact Bool.false_ne_true hg
      · rw [hcfg] at hctl
        simp only at hctl
        rw [hctl] at hg
        exact Bool.false_ne_true hg
  rcases hupd : updatePhase { w1 with pulled := true } c1
      (reloadPhase { w1 with pulled := true } ds1) with ⟨w2, c2, ds2⟩
  rw [hupd] at h2
  simp only
  exact newEvents_trans h1 h2

/-- C5: a deployment whose manifest is labeled as the controller's own stack
at both heads (and loads at both heads) is never the target of a start, a
stop, or an image pull during the cycle, whatever its classification; and
the post-deployment bookkeeping counts one failure for exactly every
non-ignored controller deployment classified Removed or Added, instead of
applying it. -/
theorem C5_controller_protection (w : World) (c : Counts) (p : String)
    (hpl : w.pulled = false)
    (hloc : (w.fsLocal p).loadOk = true)
    (hlocCtl : (w.fsLocal p).controller = true)
    (hrem : (w.fsRemote p).loadOk = true)
    (hremCtl : (w.fsRemote p).controller = true) :
    NewEvents w (checkAndUpdateDeployments w c).2.2 (fun e => e.path ≠ p)
    ∧ ∀ (c' : Counts) (ds : List Deployment),
        (postPhase c' ds).failed
          = c'.failed + ds.countP
              (fun d => !d.config.gitopsIgnore && d.config.gitopsController
                && (d.state == DeploymentState.Removed
                    || d.state == DeploymentState.Added)) :=
  ⟨cycle_avoid w c p hpl hloc hrem (Or.inr hlocCtl) (Or.inr hremCtl),
   postPhase_failed⟩

/-- Witness for C5: in the world where "ctl" is a controller manifest present
only locally and running, the cycle performs no stack operation for "ctl"
and the cycle's failed counter ends at 1. -/
theorem C5_controller_protection_witness :
    NewEvents c5World (checkAndUpdateDeployments c5World Counts.zero).2.2
      (fun e => e.path ≠ "ctl")
    ∧ (checkAndUpdateDeployments c5World Counts.zero).2.1.failed = 1 := by
  constructor
  · exact (C5_controller_protection c5World Counts.zero "ctl" rfl rfl rfl rfl rfl).1
  · decide

/-- C7 counterexample: in the world where the single manifest "x" is labeled
ignored and classified Removed, the cycle performs no operation for it, but
it is NOT counted: every counter, including ignored, stays 0 — refuting the
claim that the ignored counter is incremented whatever the classification. -/
theorem C7_ignored_removed_counterexample :
    ((checkAndUpdateDeployments c7World Counts.zero).1.1).map
        (fun d => (d.filepath, d.state, d.config.gitopsIgnore))
      = [("x", DeploymentState.Removed, true)]
    ∧ (checkAndUpdateDeployments c7World Counts.zero).2.1 = Counts.zero
    ∧ (checkAndUpdateDeployments c7World Counts.zero).2.2.trace = [] := by
  refine ⟨?_, ?_, ?_⟩ <;> decide

/-- C7 amended: a deployment labeled ignored at both heads is excluded from
every apply operation in the cycle; the post-deployment bookkeeping
increments the ignored counter for exactly the ignored deployments whose
classification is not Removed — an ignored deployment classified Removed is
not counted at all. -/
theorem C7_ignored_amended (w : World) (c : Counts) (p : String)
    (hpl : w.pulled = false)
    (hloc : (w.fsLocal p).loadOk = true)
    (hlocIgn : (w.fsLocal p).ignore = true)
    (hrem : (w.fsRemote p).loadOk = true)
    (hremIgn : (w.fsRemote p).ignore = true) :
    NewEvents w (checkAndUpdateDeployments w c).2.2 (fun e => e.path ≠ p)
    ∧ ∀ (c' : Counts) (ds : List Deployment),
        (postPhase c' ds).ignored
          = c'.ignored + ds.countP
              (fun d => d.config.gitopsIgnore
                && decide (d.state ≠ DeploymentState.Removed)) :=
  ⟨cycle_avoid w c p hpl hloc hrem (Or.inl hlocIgn) (Or.inl hremIgn),
   postPhase_ignored⟩

/-- Witness for the amended C7: the ignored manifest "y", present at both
heads and not running, triggers no stack operation and is counted once in
the ignored counter. -/
theorem C7_ignored_amended_witness :
    NewEvents c7bWorld (checkAndUpdateDeployments c7bWorld Counts.zero).2.2
      (fun e => e.path ≠ "y")
    ∧ (checkAndUpdateDeployments c7bWorld Counts.zero).2.1.ignored = 1 := by
  constructor
  · exact (C7_ignored_amended c7bWorld Counts.zero "y" rfl rfl rfl rfl rfl).1
  · decide

lemma ensureIsStopped_stop_events (w : World) (p : String) :
    NewEvents w (ensureIsStopped w p).2 (fun e => ∃ q, e = Ev.stop q) := by
  simp only [ensureIsStopped]
  split
  · exact newEvents_refl _ _
  · split
    · split
      · exact newEvents_emit _ _ _ ⟨p, rfl⟩
      · obtain ⟨t, et, ft⟩ := newEvents_emit w (Ev.stop p)
          (fun e => ∃ q, e = Ev.stop q) ⟨p, rfl⟩
        exact ⟨t, et, ft⟩
    · exact newEvents_refl _ _

lemma apply_removed_stop_events (d : Deployment) (w : World)
    (hst : d.state = .Removed) :
    NewEvents w (d.apply w).2.2 (fun e => ∃ q, e = Ev.stop q) := by
  obtain ⟨p, st, cfg, er⟩ := d
  simp only at hst
  subst hst
  simp only [Deployment.apply]
  split
  · exact newEvents_refl _ _
  · split
    · exact newEvents_refl _ _
    · split
      · exact newEvents_refl _ _
      · rcases h : ensureIsStopped w p with ⟨r, w1⟩
        have h1 : NewEvents w w1 (fun e => ∃ q, e = Ev.stop q) := by
          have := ensureIsStopped_stop_events w p
          rwa [h] at this
        cases r <;> simpa [h] using h1

lemma stopRemovedPhase_stop_events (w : World) (c : Counts)
    (ds : List Deployment) :
    NewEvents w (stopRemovedPhase w c ds).1 (fun e => ∃ q, e = Ev.stop q) := by
  induction ds generalizing w c with
  | nil => exact newEvents_refl _ _
  | cons d rest ih =>
    simp only [stopRemovedPhase]
    split
    · rcases hrec : stopRemovedPhase w c rest with ⟨w1, c1, r1⟩
      have := ih w c
      rw [hrec] at this
      exact this
    · split
      · rename_i hguard hrem
        rcases ha : applyDeploymentChange w c d with ⟨w1, c1, d1⟩
        have h1 : NewEvents w w1 (fun e => ∃ q, e = Ev.stop q) := by
          have : NewEvents w (applyDeploymentChange w c d).1
              (fun e => ∃ q, e = Ev.stop q) := by
            unfold applyDeploymentChange
            exact apply_removed_stop_events d w hrem
          rwa [ha] at this
        rcases hrec : stopRemovedPhase w1 c1 rest with ⟨w2, c2, r2⟩
        have h2 := ih w1 c1
        rw [hrec] at h2
        exact newEvents_trans h1 h2
      · rcases hrec : stopRemovedPhase w c rest with ⟨w1, c1, r1⟩
        have := ih w c
        rw [hrec] at this
        exact this

/-- C6 counterexample: in the world where the running stack "x" was removed
from the remote head and the repository pull fails, the cycle aborts with a
cycle-level failure — but the stack "x" has already been stopped in that
aborted cycle, refuting that a failing-precondition cycle performs no stack
mutation at all. -/
theorem C6_pull_failure_counterexample :
    (checkAndUpdateDeployments c6World Counts.zero).2.2.trace = [Ev.stop "x"]
    ∧ (checkAndUpdateDeployments c6World Counts.zero).1.2
      = some CycleErr.gitPullFailed
    ∧ c6World.running = ["x"] := by
  refine ⟨?_, ?_, ?_⟩ <;> decide

/-- C6 amended: a failing repository change check aborts the cycle before any
work: the world is untouched, no full diff runs, the retry set is preserved
and the failure is reported.  A listing or registry-login failure aborts
`checkAndUpdateDeployments` with the world — hence every stack — untouched
and a non-pull cycle error reported.  A repository pull failure also aborts
the cycle with a reported failure, and every stack operation already
performed in that aborted cycle is a stop (of a removed deployment): no
start and no image pull has happened, though stops may have. -/
theorem C6_precondition_abort (w : World) (c : Counts) (g : GitOps) :
    (w.hasChangesResult = none →
      (checkAndUpdate g w).2.1 = w
      ∧ (checkAndUpdate g w).2.2.checkError = true
      ∧ (checkAndUpdate g w).2.2.ranFullDiff = false
      ∧ (checkAndUpdate g w).1.retryDeployments = g.retryDeployments)
    ∧ ((w.localFiles = none ∨ w.remoteFiles = none ∨ w.loginErr = true) →
      (checkAndUpdateDeployments w c).2.2 = w
      ∧ ∃ e, (checkAndUpdateDeployments w c).1.2 = some e
          ∧ e ≠ CycleErr.gitPullFailed)
    ∧ ((checkAndUpdateDeployments w c).1.2 = some CycleErr.gitPullFailed →
      NewEvents w (checkAndUpdateDeployments w c).2.2
        (fun e => ∃ q, e = Ev.stop q)) := by
  refine ⟨?_, ?_, ?_⟩
  · intro h
    simp [checkAndUpdate, h]
  · intro h
    simp only [checkAndUpdateDeployments]
    rcases hl : w.localFiles with _ | lf
    · exact ⟨rfl, CycleErr.listLocalFailed, rfl, by simp⟩
    rcases hr : w.remoteFiles with _ | rf
    · exact ⟨rfl, CycleErr.listRemoteFailed, rfl, by simp⟩
    simp only
    rcases h with h | h | h
    · rw [hl] at h
      exact absurd h (by simp)
    · rw [hr] at h
      exact absurd h (by simp)
    · rw [if_pos h]
      exact ⟨rfl, CycleErr.loginFailed, rfl, by simp⟩
  · intro h
    simp only [checkAndUpdateDeployments] at h ⊢
    rcases hl : w.localFiles with _ | lf
    · simp [hl] at h
    rcases hr : w.remoteFiles with _ | rf
    · simp [hl, hr] at h
    by_cases hlog : w.loginErr = true
    · simp [hl, hr, hlog] at h
    · have hstop := stopRemovedPhase_stop_events w c (buildDeployments w lf rf)
      rcases hs : stopRemovedPhase w c (buildDeployments w lf rf) with ⟨w1, c1, ds1⟩
      rw [hs] at hstop
      by_cases hgp : w1.gitPullErr = true
      · simp only [hl, hr, hlog, hgp, hs, Bool.false_eq_true, if_false, if_true]
        exact hstop
      · simp [hl, hr, hlog, hgp, hs] at h

/-- Witness for the amended C6, at the pull-failure world: the cycle reports
the pull failure and every operation of the aborted cycle is a stop. -/
theorem C6_precondition_abort_witness :
    NewEvents c6World
      (checkAndUpdateDeployments c6World Counts.zero).2.2
      (fun e => ∃ q, e = Ev.stop q) :=
  (C6_precondition_abort c6World Counts.zero newGitOps).2.2 (by decide)

lemma applyDeploymentChange_parts (w : World) (c : Counts) (d : Deployment) :
    (applyDeploymentChange w c d).1 = (d.apply w).2.2
    ∧ (applyDeploymentChange w c d).2.2 = (d.apply w).2.1 := by
  unfold applyDeploymentChange
  rcases h : d.apply w with ⟨⟨wc, err⟩, d1, w1⟩
  simp [h]

lemma retryOutcomes_filepaths (w : World) (ds : List Deployment) :
    (retryOutcomes w ds).map Deployment.filepath = ds.map Deployment.filepath := by
  induction ds generalizing w with
  | nil => rfl
  | cons d rest ih =>
    simp only [retryOutcomes]
    rcases ha : applyDeploymentChange w Counts.zero d with ⟨w1, c1, d1⟩
    have hparts := applyDeploymentChange_parts w Counts.zero d
    rw [ha] at hparts
    simp only at hparts
    have hh : d1.filepath = d.filepath := by
      rw [hparts.2, apply_filepath]
    simp only [ha, List.map_cons, hh, ih w1]

lemma retryPass_spec (w : World) (c : Counts) (nr ds : List Deployment) :
    (retryPass w c nr ds).2.2
      = nr ++ (retryOutcomes w ds).filter
          (fun d => d.error = some ApplyErr.imagePullBackoff) := by
  induction ds generalizing w c nr with
  | nil => simp [retryPass, retryOutcomes]
  | cons d rest ih =>
    simp only [retryPass, retryOutcomes]
    rcases ha : applyDeploymentChange w c d with ⟨w1, c1, d1⟩
    rcases hb : applyDeploymentChange w Counts.zero d with ⟨w1', c1', d1'⟩
    have hpa := applyDeploymentChange_parts w c d
    have hpb := applyDeploymentChange_parts w Counts.zero d
    rw [ha] at hpa
    rw [hb] at hpb
    simp only at hpa hpb
    have hw : w1' = w1 := by rw [hpb.1, hpa.1]
    have hd : d1' = d1 := by rw [hpb.2, hpa.2]
    subst hw
    subst hd
    by_cases hbk : d1'.error = some ApplyErr.imagePullBackoff
    · simp only [ha, hb, if_pos hbk, ih]
      simp [List.filter_cons, hbk, List.append_assoc]
    · simp only [ha, hb, if_neg hbk, ih]
      simp [List.filter_cons, hbk]

lemma retryPass_newEvents (w : World) (c : Counts) (nr ds : List Deployment) :
    NewEvents w (retryPass w c nr ds).1
      (fun e => ∃ d ∈ ds, e.path = d.filepath) := by
  induction ds generalizing w c nr with
  | nil => exact newEvents_refl _ _
  | cons d rest ih =>
    simp only [retryPass]
    rcases ha : applyDeploymentChange w c d with ⟨w1, c1, d1⟩
    have h1 : NewEvents w w1 (fun e => ∃ d0 ∈ d :: rest, e.path = d0.filepath) := by
      have := applyDeploymentChange_newEvents w c d
      rw [ha] at this
      exact newEvents_mono (fun e he => ⟨d, by simp, he⟩) this
    have h2 := ih w1 c1
      (if d1.error = some ApplyErr.imagePullBackoff then nr ++ [d1] else nr)
    exact newEvents_trans h1
      (newEvents_mono (fun e ⟨d0, hd0, hp⟩ => ⟨d0, by simp [hd0], hp⟩) h2)

/-- C4 counterexample: on the first cycle after process start, a failing
repository change check aborts everything: no full diff-and-apply pass runs
even though it is the first cycle — refuting the claimed if-and-only-if. -/
theorem C4_first_cycle_error_counterexample :
    newGitOps.isFirstCheck = true
    ∧ (checkAndUpdate newGitOps c4World).2.2.ranFullDiff = false
    ∧ (checkAndUpdate newGitOps c4World).2.2.checkError = true := by
  refine ⟨rfl, ?_, ?_⟩ <;> decide

/-- C4 amended: when the repository change check succeeds, the cycle runs the
full diff-and-apply pass if and only if the check reports changes or it is
the first cycle after process start; when it reports no changes and it is not
the first cycle, the full diff is skipped and every stack operation of the
cycle is for an entry of the retry set.  (When the change check itself fails,
the cycle aborts without a full diff and without retry application.) -/
theorem C4_full_diff_iff (g : GitOps) (w : World) (b : Bool)
    (h : w.hasChangesResult = some b) :
    ((checkAndUpdate g w).2.2.ranFullDiff = true
      ↔ (b = true ∨ g.isFirstCheck = true))
    ∧ (b = false → g.isFirstCheck = false →
        NewEvents w (checkAndUpdate g w).2.1
          (fun e => ∃ d ∈ g.retryDeployments, e.path = d.filepath)) := by
  constructor
  · by_cases hcond : (b || g.isFirstCheck) = true
    · simp only [checkAndUpdate, h, hcond, if_true]
      rcases hc : checkAndUpdateDeployments w Counts.zero with ⟨⟨ds, err⟩, c1, w1⟩
      cases err <;> simp [Bool.or_eq_true] at hcond ⊢ <;> exact hcond
    · simp only [Bool.or_eq_true, not_or, Bool.not_eq_true] at hcond
      simp only [checkAndUpdate, h, hcond.1, hcond.2, Bool.or_self, if_false,
        Bool.false_eq_true]
      rcases hr : retryPass w Counts.zero [] g.retryDeployments with ⟨w1, c1, nr⟩
      simp [hr, hcond.1, hcond.2]
  · intro hb hf
    subst hb
    simp only [checkAndUpdate, h, hf, Bool.or_self, if_false, Bool.false_eq_true]
    have := retryPass_newEvents w Counts.zero [] g.retryDeployments
    rcases hr : retryPass w Counts.zero [] g.retryDeployments with ⟨w1, c1, nr⟩
    rw [hr] at this
    simpa [hr] using this

/-- Witness for the amended C4: a steady-state cycle (no changes, not first
run, empty retry set) skips the full diff and performs no stack operation. -/
theorem C4_full_diff_iff_witness :
    ((checkAndUpdate steadyGitOps c4bWorld).2.2.ranFullDiff = true
      ↔ (false = true ∨ steadyGitOps.isFirstCheck = true))
    ∧ NewEvents c4bWorld (checkAndUpdate steadyGitOps c4bWorld).2.1
        (fun e => ∃ d ∈ steadyGitOps.retryDeployments, e.path = d.filepath) := by
  have h := C4_full_diff_iff steadyGitOps c4bWorld false rfl
  exact ⟨h.1, h.2 rfl rfl⟩

/-- C3: the retry set.  After a successful full-diff cycle the retry set is
exactly the image-pull-backoff failures of that cycle's deployments,
whatever the previous retry set was (wholesale replacement); an aborted
full-diff cycle empties it.  In a steady-state cycle (no change, not first
run) every retained entry is re-applied, in order and by path, and the new
retry set keeps exactly those entries whose fresh apply attempt still
reports image-pull-backoff — an entry whose attempt does not produce
image-pull-backoff is removed. -/
theorem C3_retry_set (g : GitOps) (w : World) :
    ((w.hasChangesResult = some true ∨ g.isFirstCheck = true) →
      w.hasChangesResult ≠ none →
      (checkAndUpdateDeployments w Counts.zero).1.2 = none →
      (checkAndUpdate g w).1.retryDeployments
        = ((checkAndUpdateDeployments w Counts.zero).1.1).filter
            (fun d => d.error = some ApplyErr.imagePullBackoff))
    ∧ ((w.hasChangesResult = some true ∨ g.isFirstCheck = true) →
      w.hasChangesResult ≠ none →
      ∀ e, (checkAndUpdateDeployments w Counts.zero).1.2 = some e →
      (checkAndUpdate g w).1.retryDeployments = [])
    ∧ (w.hasChangesResult = some false → g.isFirstCheck = false →
      (checkAndUpdate g w).1.retryDeployments
        = (retryOutcomes w g.retryDeployments).filter
            (fun d => d.error = some ApplyErr.imagePullBackoff)
      ∧ (retryOutcomes w g.retryDeployments).map Deployment.filepath
        = g.retryDeployments.map Deployment.filepath) := by
  refine ⟨?_, ?_, ?_⟩
  · intro hfull hnn hok
    rcases hch : w.hasChangesResult with _ | b
    · exact absurd hch hnn
    have hcond : (b || g.isFirstCheck) = true := by
      rcases hfull with hf | hf
      · rw [hch] at hf
        simp only [Option.some.injEq] at hf
        simp [hf]
      · simp [hf]
    simp only [checkAndUpdate, hch, hcond, if_true]
    rcases hc : checkAndUpdateDeployments w Counts.zero with ⟨⟨ds, err⟩, c1, w1⟩
    rw [hc] at hok
    simp only at hok
    subst hok
    simp [hc]
  · intro hfull hnn e
    rcases hch : w.hasChangesResult with _ | b
    · exact absurd hch hnn
    have hcond : (b || g.isFirstCheck) = true := by
      rcases hfull with hf | hf
      · rw [hch] at hf
        simp only [Option.some.injEq] at hf
        simp [hf]
      · simp [hf]
    intro herr
    simp only [checkAndUpdate, hch, hcond, if_true]
    rcases hc : checkAndUpdateDeployments w Counts.zero with ⟨⟨ds, err⟩, c1, w1⟩
    rw [hc] at herr
    simp only at herr
    subst herr
    simp [hc]
  · intro hch hf
    constructor
    · simp only [checkAndUpdate, hch, hf, Bool.or_self, if_false,
        Bool.false_eq_true]
      have := retryPass_spec w Counts.zero [] g.retryDeployments
      rcases hr : retryPass w Counts.zero [] g.retryDeployments with ⟨w1, c1, nr⟩
      rw [hr] at this
      simpa [hr] using this
    · exact retryOutcomes_filepaths w g.retryDeployments

/-- Witness for C3 at the steady-state world where the retained deployment's
image still fails to pull: the entry is re-applied and stays in the set. -/
theorem C3_retry_set_witness :
    ((checkAndUpdate steadyRetryGitOps c3World).1.retryDeployments
      = (retryOutcomes c3World steadyRetryGitOps.retryDeployments).filter
          (fun d => d.error = some ApplyErr.imagePullBackoff)
     ∧ (retryOutcomes c3World steadyRetryGitOps.retryDeployments).map
          Deployment.filepath
       = steadyRetryGitOps.retryDeployments.map Deployment.filepath)
    ∧ ((checkAndUpdate steadyRetryGitOps c3World).1.retryDeployments).map
        Deployment.filepath = ["r"] := by
  constructor
  · exact (C3_retry_set steadyRetryGitOps c3World).2.2 rfl rfl
  · decide

lemma watchBytes_append (read : String → Option (List Nat))
    (l1 l2 : List String) :
    watchBytes read (l1 ++ l2) = watchBytes read l1 ++ watchBytes read l2 := by
  induction l1 with
  | nil => simp [watchBytes]
  | cons f rest ih =>
    simp only [List.cons_append, watchBytes, List.append_eq]
    rw [ih, List.append_assoc]

lemma watchBytes_congr (read1 read2 : String → Option (List Nat))
    (l : List String) (h : ∀ f ∈ l, read1 f = read2 f) :
    watchBytes read1 l = watchBytes read2 l := by
  induction l with
  | nil => rfl
  | cons f rest ih =>
    simp only [watchBytes]
    rw [h f (by simp), ih (fun g hg => h g (by simp [hg]))]

/-- C8: the fingerprint computed by LoadConfig is a deterministic function of
the resolved manifest content and the contents of the declared watch files:
two loads that agree on the marshalled manifest and on the read of every
declared watch file yield an identical fingerprint; and, with the hash
abstracted as an injective function of the hashed byte stream, changing the
content of one declared watch file (all other watch-file reads and the
manifest unchanged, the file readable both times) changes the fingerprint
even though the manifest text is the same. -/
theorem C8_fingerprint {α : Type} (hashFn : List Nat → α)
    (read1 read2 : String → Option (List Nat))
    (resolve : String → Option String) (p : ProjectModel) :
    ((∀ f ∈ getWatchFiles resolve p, read1 f = read2 f) →
      fingerprint hashFn read1 resolve p = fingerprint hashFn read2 resolve p)
    ∧ (Function.Injective hashFn →
      ∀ (pre post : List String) (f : String) (c1 c2 : List Nat),
        getWatchFiles resolve p = pre ++ f :: post →
        (∀ g ∈ pre, read1 g = read2 g) →
        (∀ g ∈ post, read1 g = read2 g) →
        read1 f = some c1 → read2 f = some c2 → c1 ≠ c2 →
        fingerprint hashFn read1 resolve p
          ≠ fingerprint hashFn read2 resolve p) := by
  constructor
  · intro h
    unfold fingerprint
    rw [watchBytes_congr read1 read2 _ h]
  · intro hinj pre post f c1 c2 hsplit hpre hpost hr1 hr2 hne
    unfold fingerprint
    rw [hsplit]
    intro heq
    have heq2 := hinj heq
    rw [watchBytes_append, watchBytes_append] at heq2
    simp only [watchBytes, hr1, hr2] at heq2
    rw [watchBytes_congr read1 read2 pre hpre,
        watchBytes_congr read1 read2 post hpost] at heq2
    rw [← List.append_assoc, ← List.append_assoc, ← List.append_assoc,
        ← List.append_assoc] at heq2
    have heq3 := List.append_cancel_right heq2
    have heq4 := List.append_cancel_left heq3
    exact hne heq4

/-- Witness for C8 at a concrete project with one declared watch file whose
content changes from [2] to [3] while the manifest bytes stay [1]. -/
theorem C8_fingerprint_witness :
    ((∀ f ∈ getWatchFiles some (ProjectModel.mk [1] ["f"] []),
        (fun _ => (some [2] : Option (List Nat))) f = (fun _ => some [2]) f) →
      fingerprint id (fun _ => some [2]) some (ProjectModel.mk [1] ["f"] [])
        = fingerprint id (fun _ => some [2]) some (ProjectModel.mk [1] ["f"] []))
    ∧ fingerprint id (fun _ => (some [2] : Option (List Nat))) some
        (ProjectModel.mk [1] ["f"] [])
      ≠ fingerprint id (fun _ => some [3]) some (ProjectModel.mk [1] ["f"] []) := by
  have h := C8_fingerprint (α := List Nat) id (fun _ => some [2]) (fun _ => some [3])
    some (ProjectModel.mk [1] ["f"] [])
  refine ⟨(C8_fingerprint (α := List Nat) id (fun _ => some [2]) (fun _ => some [2])
    some (ProjectModel.mk [1] ["f"] [])).1, ?_⟩
  exact h.2 (fun a b hab => hab) [] [] "f" [2] [3] rfl
    (by intro g hg; simp at hg) (by intro g hg; simp at hg) rfl rfl (by decide)

/-- C9 counterexample: the trigger channel is created with
`make(chan struct \x7b\x7d)`, an unbuffered channel — its capacity is 0, not 1; a
webhook arriving while the worker is busy is dropped even though no trigger
is pending in the queue, which the claimed capacity-1 queue would instead
accept and buffer. -/
theorem C9_capacity_counterexample :
    triggerChanCapacity = 0
    ∧ triggerChanCapacity ≠ 1
    ∧ (webhookSend { phase := .running, queued := 0 }).2 = false
    ∧ (webhookSend { phase := .running, queued := 0 }).1.queued = 0 := by
  refine ⟨rfl, by decide, rfl, rfl⟩

lemma schedReachable_queued (s : Sched) (h : SchedReachable s) : s.queued = 0 := by
  induction h with
  | init => rfl
  | webhook h ih =>
    rename_i s1
    unfold webhookSend
    cases hp : s1.phase
    · simpa using ih
    · simp only [triggerChanCapacity]
      rw [if_neg (by omega)]
      exact ih
  | timer h ih =>
    rename_i s1
    unfold timerSend
    cases hp : s1.phase
    · simpa using ih
    · simp only [triggerChanCapacity]
      rw [if_neg (by omega)]
      exact ih
  | finish h ih =>
    rename_i s1
    unfold workerFinish
    rw [if_pos ih]

/-- C9 amended: the trigger channel is unbuffered (capacity 0): in every
reachable scheduler state no trigger is ever buffered (in particular never
more than one is queued ahead), the single worker means at most one
reconciliation cycle is in flight, and the webhook's non-blocking send is
accepted exactly when the worker is idle waiting on the channel — a webhook
arriving while a cycle runs is dropped. -/
theorem C9_single_flight (s : Sched) (h : SchedReachable s) :
    s.queued = 0
    ∧ s.queued ≤ triggerChanCapacity
    ∧ ((webhookSend s).2 = true ↔ s.phase = .waiting) := by
  have hq := schedReachable_queued s h
  refine ⟨hq, by simp [hq, triggerChanCapacity], ?_⟩
  unfold webhookSend
  cases hp : s.phase
  · simp
  · simp only [triggerChanCapacity, hq]
    rw [if_neg (by omega)]
    simp

/-- Witness for C9 at the reachable state after one accepted webhook: the
worker runs the cycle, nothing is queued, and a second webhook is dropped. -/
theorem C9_single_flight_witness :
    ((webhookSend Sched.init).1.queued = 0
    ∧ (webhookSend Sched.init).1.queued ≤ triggerChanCapacity
    ∧ ((webhookSend (webhookSend Sched.init).1).2 = true
        ↔ (webhookSend Sched.init).1.phase = .waiting)) :=
  C9_single_flight (webhookSend Sched.init).1
    (SchedReachable.webhook SchedReachable.init)

end GitopsCompose